import Mathlib

/-!
Verification of the account ledger module (`accounts.py`).

Embedding conventions:
* Python `float` cash amounts and prices are modelled by exact rationals (`ℚ`);
  every numeric literal in the module (150.00, 2500.00, 700.00) is exactly
  representable, and no claim in scope depends on IEEE-754 rounding.
* Python `int` quantities are modelled by `ℤ`.  The `quantity` argument of
  `buy_shares` / `sell_shares` is modelled by `PyNumber`, which distinguishes an
  `int` from a non-`int` numeric (`float`), mirroring the
  `isinstance(quantity, int)` check.
* Exceptions are modelled by `Except (TradingErr × Account) Account`: the error
  value carries the account state as it is at the moment of the `raise`, so
  "failure leaves the state unchanged" is a theorem about the translation, not
  a definitional triviality.  Exception message strings are elided.
* The `timestamp` field of a transaction record (wall clock) is elided.
* Python `dict` is modelled by an ordered association list with the Python
  update-in-place / append-new-key / delete operations.
-/

/-- Error kinds of the module: `ValueError` plus the `TradingError` subclasses
`InsufficientFundsError`, `InsufficientSharesError`, `InvalidSymbolError`.
Message strings are elided. -/
inductive TradingErr where
  | valueErr
  | insufficientFunds
  | insufficientShares
  | invalidSymbol
deriving DecidableEq, Repr

/-- A transaction record as built by `Account._record_transaction`: the dict
with keys `type`, `symbol`, `quantity`, `price_per_share`, `total_value`
(the wall-clock `timestamp` key is elided). -/
structure Transaction where
  ttype : String
  symbol : Option String
  quantity : Option ℤ
  price_per_share : Option ℚ
  total_value : ℚ
deriving DecidableEq, Repr, Inhabited

/-- A Python numeric argument: either an `int` or a non-`int` numeric
(`float`), as distinguished by `isinstance(quantity, int)`. -/
inductive PyNumber where
  | int (n : ℤ)
  | float (q : ℚ)
deriving DecidableEq, Repr

/-- Python `str.upper()`. This equals `String.toUpper` (see
`pyUpper_eq_toUpper`); it is restated through the character list so that the
kernel can evaluate it on concrete symbols (`String.toUpper` itself is
defined by well-founded recursion). -/
def pyUpper (s : String) : String :=
  ⟨s.data.map Char.toUpper⟩

/-- Sanity: `pyUpper` is the library `String.toUpper`. -/
theorem pyUpper_eq_toUpper (s : String) : pyUpper s = s.toUpper := by
  simp [pyUpper, String.toUpper, String.map_eq]

/-- Function `get_share_price(symbol)`: mock pricing oracle over the fixed table
`{AAPL: 150.00, GOOGL: 2500.00, TSLA: 700.00}`; the symbol is normalized to
uppercase before lookup, and an unknown symbol raises `InvalidSymbolError`
(modelled as `none`). -/
def get_share_price (symbol : String) : Option ℚ :=
  let normalized_symbol := pyUpper symbol
  if normalized_symbol = "AAPL" then some 150
  else if normalized_symbol = "GOOGL" then some 2500
  else if normalized_symbol = "TSLA" then some 700
  else none

/-- Python `d.get(k, 0)` on the holdings dict. -/
def dictGet (m : List (String × ℤ)) (k : String) : ℤ :=
  match m.find? (fun p => p.1 == k) with
  | some p => p.2
  | none => 0

/-- Python `d[k] = v` on the holdings dict: update the existing entry in place
(preserving insertion order), or append a new entry. -/
def dictSet (m : List (String × ℤ)) (k : String) (v : ℤ) : List (String × ℤ) :=
  if m.any (fun p => p.1 == k) then
    m.map (fun p => if p.1 == k then (k, v) else p)
  else
    m ++ [(k, v)]

/-- Python `del d[k]` on the holdings dict. -/
def dictDel (m : List (String × ℤ)) (k : String) : List (String × ℤ) :=
  m.filter (fun p => p.1 != k)

/-- The `Account` state: `_user_id`, `_cash_balance`, `_total_deposits`,
`_holdings`, `_transactions`. -/
structure Account where
  user_id : String
  cash_balance : ℚ
  total_deposits : ℚ
  holdings : List (String × ℤ)
  transactions : List Transaction
deriving DecidableEq, Repr

/-- Constructor `Account.__init__`: zero cash, zero deposits, no holdings, no
transactions. -/
def Account.init (user_id : String) : Account :=
  { user_id := user_id
    cash_balance := 0
    total_deposits := 0
    holdings := []
    transactions := [] }

/-- Helper `Account._record_transaction`: append one record to `_transactions`. -/
def Account.record_transaction (a : Account) (t : Transaction) : Account :=
  { a with transactions := a.transactions ++ [t] }

/-- Method `Account.deposit(amount)`: reject `amount <= 0` with `ValueError`;
otherwise add to cash and to total deposits and append a DEPOSIT record. -/
def Account.deposit (a : Account) (amount : ℚ) :
    Except (TradingErr × Account) Account :=
  if amount ≤ 0 then
    .error (.valueErr, a)
  else
    .ok (Account.record_transaction
      { a with cash_balance := a.cash_balance + amount
               total_deposits := a.total_deposits + amount }
      ⟨"DEPOSIT", none, none, none, amount⟩)

/-- Method `Account.withdraw(amount)`: reject `amount <= 0` with `ValueError` and
`amount > cash` with `InsufficientFundsError`; otherwise subtract from cash
and append a WITHDRAW record. -/
def Account.withdraw (a : Account) (amount : ℚ) :
    Except (TradingErr × Account) Account :=
  if amount ≤ 0 then
    .error (.valueErr, a)
  else if amount > a.cash_balance then
    .error (.insufficientFunds, a)
  else
    .ok (Account.record_transaction
      { a with cash_balance := a.cash_balance - amount }
      ⟨"WITHDRAW", none, none, none, amount⟩)

/-- Method `Account.buy_shares(symbol, quantity)`: `ValueError` unless `quantity` is
a positive `int`; normalize the symbol, query the oracle (`InvalidSymbolError`
propagates unchanged); `InsufficientFundsError` if `total_cost` exceeds cash;
otherwise subtract the cost, add the quantity to the holding (creating the
entry if absent) and append a BUY record. -/
def Account.buy_shares (a : Account) (symbol : String) (quantity : PyNumber) :
    Except (TradingErr × Account) Account :=
  match quantity with
  | .float _ => .error (.valueErr, a)
  | .int q =>
    if q ≤ 0 then
      .error (.valueErr, a)
    else
      let normalized_symbol := pyUpper symbol
      match get_share_price normalized_symbol with
      | none => .error (.invalidSymbol, a)
      | some price =>
        let total_cost := price * q
        if total_cost > a.cash_balance then
          .error (.insufficientFunds, a)
        else
          .ok (Account.record_transaction
            { a with cash_balance := a.cash_balance - total_cost
                     holdings := dictSet a.holdings normalized_symbol
                       (dictGet a.holdings normalized_symbol + q) }
            ⟨"BUY", some normalized_symbol, some q, some price, total_cost⟩)

/-- Method `Account.sell_shares(symbol, quantity)`: `ValueError` unless `quantity` is
a positive `int`; normalize the symbol; `InsufficientSharesError` if fewer
shares are owned than requested (checked before the oracle is consulted);
then query the oracle; otherwise add the proceeds to cash, subtract the
quantity from the holding, delete the entry if it reaches exactly zero, and
append a SELL record. -/
def Account.sell_shares (a : Account) (symbol : String) (quantity : PyNumber) :
    Except (TradingErr × Account) Account :=
  match quantity with
  | .float _ => .error (.valueErr, a)
  | .int q =>
    if q ≤ 0 then
      .error (.valueErr, a)
    else
      let normalized_symbol := pyUpper symbol
      let current_shares := dictGet a.holdings normalized_symbol
      if current_shares < q then
        .error (.insufficientShares, a)
      else
        match get_share_price normalized_symbol with
        | none => .error (.invalidSymbol, a)
        | some price =>
          let total_proceeds := price * q
          let h1 := dictSet a.holdings normalized_symbol (current_shares - q)
          let h2 := if dictGet h1 normalized_symbol = 0 then
              dictDel h1 normalized_symbol
            else h1
          .ok (Account.record_transaction
            { a with cash_balance := a.cash_balance + total_proceeds
                     holdings := h2 }
            ⟨"SELL", some normalized_symbol, some q, some price,
              total_proceeds⟩)

/-- Method `Account.get_portfolio_value()`: cash plus the value of all holdings,
where a holding whose price lookup raises `InvalidSymbolError` is skipped
(contributes nothing). -/
def Account.get_portfolio_value (a : Account) : ℚ :=
  let holdings_value := a.holdings.foldl
    (fun acc p =>
      match get_share_price p.1 with
      | some price => acc + price * p.2
      | none => acc)
    0
  a.cash_balance + holdings_value

/-- Method `Account.get_profit_loss()`: portfolio value minus total deposits. -/
def Account.get_profit_loss (a : Account) : ℚ :=
  a.get_portfolio_value - a.total_deposits

/-- Method `Account.get_cash_balance()`. -/
def Account.get_cash_balance (a : Account) : ℚ :=
  a.cash_balance

/-- One call to one of the four mutating operations. -/
inductive Op where
  | deposit (amount : ℚ)
  | withdraw (amount : ℚ)
  | buy (symbol : String) (quantity : PyNumber)
  | sell (symbol : String) (quantity : PyNumber)
deriving DecidableEq, Repr

/-- Dispatch one operation on an account. -/
def applyOp (a : Account) : Op → Except (TradingErr × Account) Account
  | .deposit amount => a.deposit amount
  | .withdraw amount => a.withdraw amount
  | .buy symbol quantity => a.buy_shares symbol quantity
  | .sell symbol quantity => a.sell_shares symbol quantity

/-- The account state after one call, whether it succeeds or raises (a raise
leaves the caller holding the state carried by the exception path). -/
def runOp (a : Account) (op : Op) : Account :=
  match applyOp a op with
  | .ok a1 => a1
  | .error (_, a1) => a1

/-- The account state after a sequence of calls. -/
def runOps (a : Account) (ops : List Op) : Account :=
  ops.foldl runOp a

/-- A state reachable from a fresh account by some sequence of the four
mutating calls. -/
def Reachable (a : Account) : Prop :=
  ∃ (uid : String) (ops : List Op), runOps (Account.init uid) ops = a

/-- Packing a valid codepoint and unpacking it is the identity. -/
theorem char_toNat_ofNat {m : Nat} (h : m.isValidChar) :
    (Char.ofNat m).toNat = m := by
  rw [Char.ofNat, dif_pos h]
  rfl

/-- Uppercasing a character is idempotent. -/
theorem char_toUpper_idem (c : Char) : c.toUpper.toUpper = c.toUpper := by
  unfold Char.toUpper
  by_cases h : c.toNat ≥ 97 ∧ c.toNat ≤ 122
  · rw [if_pos h]
    have hv : (c.toNat - 32).isValidChar := Or.inl (by omega)
    have hn : ¬((Char.ofNat (c.toNat - 32)).toNat ≥ 97 ∧
        (Char.ofNat (c.toNat - 32)).toNat ≤ 122) := by
      rw [char_toNat_ofNat hv]
      omega
    rw [if_neg hn]
  · rw [if_neg h, if_neg h]

/-- Python `str.upper()` is idempotent. -/
theorem pyUpper_idem (s : String) : pyUpper (pyUpper s) = pyUpper s := by
  simp only [pyUpper, List.map_map]
  congr 1
  apply List.map_congr_left
  intro c _
  exact char_toUpper_idem c

/-- If every entry of the dict has a positive value, every `get` is
non-negative. -/
theorem dictGet_nonneg (m : List (String × ℤ)) (k : String)
    (h : ∀ p ∈ m, 0 < p.2) : 0 ≤ dictGet m k := by
  unfold dictGet
  cases hf : m.find? (fun p => p.1 == k) with
  | none => exact le_refl 0
  | some p => exact le_of_lt (h p (List.mem_of_find?_eq_some hf))

/-- After an in-place update of key `k`, searching for `k` finds the new
entry. -/
theorem find_map_set (m : List (String × ℤ)) (k : String) (v : ℤ)
    (h : m.any (fun p => p.1 == k) = true) :
    (m.map (fun p => if p.1 == k then (k, v) else p)).find?
      (fun p => p.1 == k) = some (k, v) := by
  induction m with
  | nil => simp at h
  | cons p t ih =>
    by_cases hp : p.1 = k
    · simp [List.find?_cons, hp]
    · have ht : t.any (fun p => p.1 == k) = true := by
        rcases List.any_eq_true.mp h with ⟨x, hx, hxk⟩
        rcases List.mem_cons.mp hx with rfl | hxt
        · exact absurd (by simpa using hxk) hp
        · exact List.any_eq_true.mpr ⟨x, hxt, hxk⟩
      rw [List.map_cons, if_neg (by simpa using hp),
        List.find?_cons_of_neg _ (by simpa using hp), ih ht]

/-- Looking up the key just stored returns the stored value. -/
theorem dictGet_dictSet (m : List (String × ℤ)) (k : String) (v : ℤ) :
    dictGet (dictSet m k v) k = v := by
  unfold dictGet dictSet
  by_cases h : m.any (fun p => p.1 == k) = true
  · rw [if_pos h, find_map_set m k v h]
  · rw [if_neg h, List.find?_append]
    have hnone : m.find? (fun p => p.1 == k) = none := by
      rw [List.find?_eq_none]
      intro x hx
      intro hc
      exact h (List.any_eq_true.mpr ⟨x, hx, hc⟩)
    simp [hnone, List.find?_cons]

/-- Every entry of `dictSet m k v` is the new entry or an entry of `m`. -/
theorem mem_dictSet (m : List (String × ℤ)) (k : String) (v : ℤ)
    (p : String × ℤ) (h : p ∈ dictSet m k v) : p = (k, v) ∨ p ∈ m := by
  unfold dictSet at h
  by_cases ha : m.any (fun x => x.1 == k) = true
  · rw [if_pos ha] at h
    obtain ⟨x, hx, hxe⟩ := List.mem_map.mp h
    by_cases hk : (x.1 == k) = true
    · rw [if_pos hk] at hxe
      exact Or.inl hxe.symm
    · rw [if_neg hk] at hxe
      exact Or.inr (hxe ▸ hx)
  · rw [if_neg ha] at h
    rcases List.mem_append.mp h with hm | hs
    · exact Or.inr hm
    · exact Or.inl (List.mem_singleton.mp hs)

/-- Every entry of `dictDel m k` is an entry of `m` whose key is not `k`. -/
theorem mem_dictDel (m : List (String × ℤ)) (k : String)
    (p : String × ℤ) (h : p ∈ dictDel m k) : p ∈ m ∧ p.1 ≠ k := by
  unfold dictDel at h
  have hmem := List.mem_filter.mp h
  refine ⟨hmem.1, ?_⟩
  simpa using hmem.2

/-- Any price the oracle returns is non-negative. -/
theorem get_share_price_nonneg (s : String) (p : ℚ)
    (h : get_share_price s = some p) : 0 ≤ p := by
  simp only [get_share_price] at h
  split at h
  · cases h; norm_num
  · split at h
    · cases h; norm_num
    · split at h
      · cases h; norm_num
      · cases h

/-- The oracle normalizes its argument, so pre-normalizing changes nothing. -/
theorem get_share_price_pyUpper (s : String) :
    get_share_price (pyUpper s) = get_share_price s := by
  unfold get_share_price
  rw [pyUpper_idem]

/-- Characterization of a successful `deposit`. -/
theorem deposit_ok (a : Account) (x : ℚ) (a1 : Account)
    (h : a.deposit x = .ok a1) :
    0 < x ∧
    a1 = { a with
      cash_balance := a.cash_balance + x
      total_deposits := a.total_deposits + x
      transactions := a.transactions ++ [⟨"DEPOSIT", none, none, none, x⟩] } := by
  simp only [Account.deposit] at h
  split at h
  · simp at h
  · cases h
    exact ⟨by linarith, rfl⟩

/-- Characterization of a successful `withdraw`. -/
theorem withdraw_ok (a : Account) (x : ℚ) (a1 : Account)
    (h : a.withdraw x = .ok a1) :
    0 < x ∧ x ≤ a.cash_balance ∧
    a1 = { a with
      cash_balance := a.cash_balance - x
      transactions := a.transactions ++ [⟨"WITHDRAW", none, none, none, x⟩] } := by
  simp only [Account.withdraw] at h
  split at h
  · simp at h
  · split at h
    · simp at h
    · cases h
      refine ⟨by linarith, by linarith, rfl⟩

/-- Characterization of a successful `buy_shares`. -/
theorem buy_ok (a : Account) (s : String) (q : PyNumber) (a1 : Account)
    (h : a.buy_shares s q = .ok a1) :
    ∃ (n : ℤ) (price : ℚ), q = .int n ∧ 0 < n ∧
      get_share_price (pyUpper s) = some price ∧
      price * n ≤ a.cash_balance ∧
      a1 = { a with
        cash_balance := a.cash_balance - price * n
        holdings := dictSet a.holdings (pyUpper s)
          (dictGet a.holdings (pyUpper s) + n)
        transactions := a.transactions ++
          [⟨"BUY", some (pyUpper s), some n, some price, price * n⟩] } := by
  cases q with
  | float x => simp [Account.buy_shares] at h
  | int n =>
    simp only [Account.buy_shares] at h
    split at h
    · simp at h
    · split at h
      · simp at h
      · split at h
        · simp at h
        · cases h
          refine ⟨n, _, rfl, by omega, by assumption, by linarith, rfl⟩

/-- Characterization of a successful `sell_shares`. -/
theorem sell_ok (a : Account) (s : String) (q : PyNumber) (a1 : Account)
    (h : a.sell_shares s q = .ok a1) :
    ∃ (n : ℤ) (price : ℚ), q = .int n ∧ 0 < n ∧
      n ≤ dictGet a.holdings (pyUpper s) ∧
      get_share_price (pyUpper s) = some price ∧
      a1 = { a with
        cash_balance := a.cash_balance + price * n
        holdings :=
          (if dictGet (dictSet a.holdings (pyUpper s)
                (dictGet a.holdings (pyUpper s) - n)) (pyUpper s) = 0 then
            dictDel (dictSet a.holdings (pyUpper s)
              (dictGet a.holdings (pyUpper s) - n)) (pyUpper s)
          else
            dictSet a.holdings (pyUpper s)
              (dictGet a.holdings (pyUpper s) - n))
        transactions := a.transactions ++
          [⟨"SELL", some (pyUpper s), some n, some price, price * n⟩] } := by
  cases q with
  | float x => simp [Account.sell_shares] at h
  | int n =>
    simp only [Account.sell_shares] at h
    split at h
    · simp at h
    · split at h
      · simp at h
      · split at h
        · simp at h
        · cases h
          refine ⟨n, _, rfl, by omega, by omega, by assumption, rfl⟩

/-- Every `raise` in the module happens before any state mutation: the state
carried out of a failing call is the input state. -/
theorem applyOp_error (a : Account) (op : Op) (e : TradingErr) (a1 : Account)
    (h : applyOp a op = .error (e, a1)) : a1 = a := by
  cases op with
  | deposit x =>
    simp only [applyOp, Account.deposit] at h
    split at h
    · cases h; rfl
    · simp at h
  | withdraw x =>
    simp only [applyOp, Account.withdraw] at h
    split at h
    · cases h; rfl
    · split at h
      · cases h; rfl
      · simp at h
  | buy s q =>
    cases q with
    | float x => simp only [applyOp, Account.buy_shares] at h; cases h; rfl
    | int n =>
      simp only [applyOp, Account.buy_shares] at h
      split at h
      · cases h; rfl
      · split at h
        · cases h; rfl
        · split at h
          · cases h; rfl
          · simp at h
  | sell s q =>
    cases q with
    | float x => simp only [applyOp, Account.sell_shares] at h; cases h; rfl
    | int n =>
      simp only [applyOp, Account.sell_shares] at h
      split at h
      · cases h; rfl
      · split at h
        · cases h; rfl
        · split at h
          · cases h; rfl
          · simp at h

/-- Either a call fails and the state is unchanged, or it succeeds. -/
theorem runOp_cases (a : Account) (op : Op) :
    runOp a op = a ∨ applyOp a op = .ok (runOp a op) := by
  unfold runOp
  cases happ : applyOp a op with
  | ok a1 => right; rfl
  | error p =>
    left
    obtain ⟨e, a1⟩ := p
    exact applyOp_error a op e a1 happ

/-- The state invariant maintained by the four mutating operations:
non-negative cash, positive holding quantities with uppercase-normalized
keys, and BUY/SELL records carrying uppercase-normalized symbols. -/
def LedgerInv (a : Account) : Prop :=
  0 ≤ a.cash_balance ∧
  (∀ p ∈ a.holdings, 0 < p.2 ∧ pyUpper p.1 = p.1) ∧
  (∀ t ∈ a.transactions, (t.ttype = "BUY" ∨ t.ttype = "SELL") →
    ∃ u, t.symbol = some u ∧ pyUpper u = u)

/-- A fresh account satisfies the invariant. -/
theorem inv_init (uid : String) : LedgerInv (Account.init uid) := by
  refine ⟨le_refl 0, ?_, ?_⟩ <;> intro p hp <;> simp [Account.init] at hp

/-- Each of the four operations preserves the invariant, whether it succeeds
or fails. -/
theorem inv_step (a : Account) (op : Op) (h : LedgerInv a) : LedgerInv (runOp a op) := by
  obtain ⟨hc, hh, ht⟩ := h
  rcases runOp_cases a op with heq | hok
  · rw [heq]; exact ⟨hc, hh, ht⟩
  · cases op with
    | deposit x =>
      simp only [applyOp] at hok
      obtain ⟨hx, ha⟩ := deposit_ok a x _ hok
      rw [ha]
      refine ⟨by dsimp only; linarith, hh, ?_⟩
      intro t hmem hbs
      rcases List.mem_append.mp hmem with hold | hnew
      · exact ht t hold hbs
      · rw [List.mem_singleton.mp hnew] at hbs
        simp at hbs
    | withdraw x =>
      simp only [applyOp] at hok
      obtain ⟨hx, hle, ha⟩ := withdraw_ok a x _ hok
      rw [ha]
      refine ⟨by dsimp only; linarith, hh, ?_⟩
      intro t hmem hbs
      rcases List.mem_append.mp hmem with hold | hnew
      · exact ht t hold hbs
      · rw [List.mem_singleton.mp hnew] at hbs
        simp at hbs
    | buy s q =>
      simp only [applyOp] at hok
      obtain ⟨n, price, hq, hn, hp, hcost, ha⟩ := buy_ok a s q _ hok
      rw [ha]
      refine ⟨by dsimp only; linarith, ?_, ?_⟩
      · intro p hp1
        rcases mem_dictSet _ _ _ p hp1 with hnew | hold
        · rw [hnew]
          have hg : 0 ≤ dictGet a.holdings (pyUpper s) :=
            dictGet_nonneg _ _ (fun x hx => (hh x hx).1)
          exact ⟨by omega, pyUpper_idem s⟩
        · exact hh p hold
      · intro t hmem hbs
        rcases List.mem_append.mp hmem with hold | hnew
        · exact ht t hold hbs
        · rw [List.mem_singleton.mp hnew]
          exact ⟨pyUpper s, rfl, pyUpper_idem s⟩
    | sell s q =>
      simp only [applyOp] at hok
      obtain ⟨n, price, hq, hn, hown, hp, ha⟩ := sell_ok a s q _ hok
      rw [ha]
      have hpr : 0 ≤ price := get_share_price_nonneg _ _ hp
      have hcn : (0 : ℚ) ≤ (n : ℚ) := by exact_mod_cast le_of_lt hn
      refine ⟨by dsimp only; nlinarith, ?_, ?_⟩
      · intro p hp1
        dsimp only at hp1
        split at hp1
        · obtain ⟨hp2, hp3⟩ := mem_dictDel _ _ p hp1
          rcases mem_dictSet _ _ _ p hp2 with hnew | hold
          · exact absurd (congrArg Prod.fst hnew) hp3
          · exact hh p hold
        · rename_i hnz
          rw [dictGet_dictSet] at hnz
          rcases mem_dictSet _ _ _ p hp1 with hnew | hold
          · rw [hnew]
            exact ⟨by omega, pyUpper_idem s⟩
          · exact hh p hold
      · intro t hmem hbs
        rcases List.mem_append.mp hmem with hold | hnew
        · exact ht t hold hbs
        · rw [List.mem_singleton.mp hnew]
          exact ⟨pyUpper s, rfl, pyUpper_idem s⟩

/-- The invariant holds after any sequence of calls. -/
theorem inv_runOps (a : Account) (ops : List Op) (h : LedgerInv a) :
    LedgerInv (runOps a ops) := by
  induction ops generalizing a with
  | nil => exact h
  | cons op rest ih => exact ih (runOp a op) (inv_step a op h)

/-- Every reachable state satisfies the invariant. -/
theorem reachable_inv (a : Account) (h : Reachable a) : LedgerInv a := by
  obtain ⟨uid, ops, rfl⟩ := h
  exact inv_runOps _ _ (inv_init uid)

/-- C1: In every state reachable from a fresh account by any sequence of
deposit, withdraw, buy_shares and sell_shares calls, the cash balance is
never negative; deposit and sell_shares only increase it, withdraw and
buy_shares only decrease it. -/
theorem C1_cash_never_negative :
    (∀ a : Account, Reachable a → 0 ≤ a.cash_balance) ∧
    (∀ (a : Account) (x : ℚ),
      a.cash_balance ≤ (runOp a (Op.deposit x)).cash_balance) ∧
    (∀ (a : Account) (s : String) (q : PyNumber),
      a.cash_balance ≤ (runOp a (Op.sell s q)).cash_balance) ∧
    (∀ (a : Account) (x : ℚ),
      (runOp a (Op.withdraw x)).cash_balance ≤ a.cash_balance) ∧
    (∀ (a : Account) (s : String) (q : PyNumber),
      (runOp a (Op.buy s q)).cash_balance ≤ a.cash_balance) := by
  refine ⟨fun a h => (reachable_inv a h).1, ?_, ?_, ?_, ?_⟩
  · intro a x
    rcases runOp_cases a (Op.deposit x) with heq | hok
    · rw [heq]
    · simp only [applyOp] at hok
      obtain ⟨hx, ha⟩ := deposit_ok a x _ hok
      rw [ha]
      dsimp only
      linarith
  · intro a s q
    rcases runOp_cases a (Op.sell s q) with heq | hok
    · rw [heq]
    · simp only [applyOp] at hok
      obtain ⟨n, price, hq, hn, hown, hp, ha⟩ := sell_ok a s q _ hok
      rw [ha]
      dsimp only
      have hpr : 0 ≤ price := get_share_price_nonneg _ _ hp
      have hcn : (0 : ℚ) ≤ (n : ℚ) := by exact_mod_cast le_of_lt hn
      nlinarith
  · intro a x
    rcases runOp_cases a (Op.withdraw x) with heq | hok
    · rw [heq]
    · simp only [applyOp] at hok
      obtain ⟨hx, hle, ha⟩ := withdraw_ok a x _ hok
      rw [ha]
      dsimp only
      linarith
  · intro a s q
    rcases runOp_cases a (Op.buy s q) with heq | hok
    · rw [heq]
    · simp only [applyOp] at hok
      obtain ⟨n, price, hq, hn, hp, hcost, ha⟩ := buy_ok a s q _ hok
      rw [ha]
      dsimp only
      have hpr : 0 ≤ price := get_share_price_nonneg _ _ hp
      have hcn : (0 : ℚ) ≤ (n : ℚ) := by exact_mod_cast le_of_lt hn
      nlinarith

/-- Closed instance of C1 at a concrete reachable state. -/
theorem C1_cash_never_negative_witness :
    0 ≤ (runOps (Account.init "u")
      [Op.deposit 100, Op.withdraw 30]).cash_balance :=
  C1_cash_never_negative.1 _ ⟨"u", [Op.deposit 100, Op.withdraw 30], rfl⟩

/-- C2: In every reachable state no holdings entry has quantity ≤ 0, and
selling exactly the owned quantity of a symbol removes its key from the
holdings entirely. -/
theorem C2_no_nonpositive_holdings :
    (∀ a : Account, Reachable a → ∀ p ∈ a.holdings, 0 < p.2) ∧
    (∀ (a a1 : Account) (s : String) (n : ℤ),
      a.sell_shares s (.int n) = .ok a1 →
      n = dictGet a.holdings (pyUpper s) →
      ∀ p ∈ a1.holdings, p.1 ≠ pyUpper s) := by
  constructor
  · intro a h p hp
    exact ((reachable_inv a h).2.1 p hp).1
  · intro a a1 s n hsell hall p hp
    obtain ⟨n1, price, hq, hn, hown, hpr, ha⟩ := sell_ok a s _ a1 hsell
    have hn1 : n1 = n := by
      cases hq
      rfl
    subst hn1
    rw [ha] at hp
    dsimp only at hp
    rw [dictGet_dictSet, ← hall, sub_self] at hp
    rw [if_pos rfl] at hp
    exact (mem_dictDel _ _ p hp).2

/-- Closed instance of C2: selling the whole AAPL holding leaves no AAPL
key. -/
theorem C2_no_nonpositive_holdings_witness :
    ∀ p ∈ (runOp { Account.init "u" with holdings := [("AAPL", 1)] }
      (Op.sell "AAPL" (.int 1))).holdings, p.1 ≠ pyUpper "AAPL" :=
  C2_no_nonpositive_holdings.2
    { Account.init "u" with holdings := [("AAPL", 1)] }
    _ "AAPL" 1 (by rfl) (by decide)

/-- C3: each of the four mutating calls appends exactly one transaction
record on success and, on failure, appends no record and leaves the whole
account state exactly as before. -/
theorem C3_atomic_calls (a : Account) (op : Op) :
    (∀ a1, applyOp a op = .ok a1 →
      ∃ t, a1.transactions = a.transactions ++ [t]) ∧
    (∀ e a1, applyOp a op = .error (e, a1) → a1 = a) := by
  constructor
  · intro a1 hok
    cases op with
    | deposit x =>
      simp only [applyOp] at hok
      obtain ⟨_, ha⟩ := deposit_ok a x a1 hok
      exact ⟨_, by rw [ha]⟩
    | withdraw x =>
      simp only [applyOp] at hok
      obtain ⟨_, _, ha⟩ := withdraw_ok a x a1 hok
      exact ⟨_, by rw [ha]⟩
    | buy s q =>
      simp only [applyOp] at hok
      obtain ⟨n, price, _, _, _, _, ha⟩ := buy_ok a s q a1 hok
      exact ⟨_, by rw [ha]⟩
    | sell s q =>
      simp only [applyOp] at hok
      obtain ⟨n, price, _, _, _, _, ha⟩ := sell_ok a s q a1 hok
      exact ⟨_, by rw [ha]⟩
  · intro e a1 herr
    exact applyOp_error a op e a1 herr

/-- Closed instance of C3: a successful deposit appends one record. -/
theorem C3_atomic_calls_witness :
    ∃ t, (runOp (Account.init "u") (Op.deposit 5)).transactions =
      (Account.init "u").transactions ++ [t] :=
  (C3_atomic_calls (Account.init "u") (Op.deposit 5)).1 _ (by rfl)

/-- C4: buying a known symbol with sufficient cash decreases cash by exactly
price times quantity and increases the holding by exactly the quantity;
buying with insufficient cash fails with `InsufficientFundsError` and
mutates nothing. -/
theorem C4_buy_shares_effect (a : Account) (s : String) (p : ℚ) (n : ℤ)
    (hs : get_share_price s = some p) (hn : 0 < n) :
    (p * n ≤ a.cash_balance →
      ∃ a1, a.buy_shares s (.int n) = .ok a1 ∧
        a1.cash_balance = a.cash_balance - p * n ∧
        dictGet a1.holdings (pyUpper s) =
          dictGet a.holdings (pyUpper s) + n) ∧
    (a.cash_balance < p * n →
      a.buy_shares s (.int n) = .error (.insufficientFunds, a)) := by
  have hps : get_share_price (pyUpper s) = some p := by
    rw [get_share_price_pyUpper]
    exact hs
  constructor
  · intro hle
    refine ⟨Account.record_transaction
      { a with cash_balance := a.cash_balance - p * n
               holdings := dictSet a.holdings (pyUpper s)
                 (dictGet a.holdings (pyUpper s) + n) }
      ⟨"BUY", some (pyUpper s), some n, some p, p * n⟩, ?_, rfl, ?_⟩
    · simp only [Account.buy_shares, hps]
      rw [if_neg (by omega : ¬ n ≤ 0),
        if_neg (by linarith : ¬ p * n > a.cash_balance)]
    · simp only [Account.record_transaction]
      exact dictGet_dictSet _ _ _
  · intro hgt
    simp only [Account.buy_shares, hps]
    rw [if_neg (by omega : ¬ n ≤ 0),
      if_pos (by linarith : p * n > a.cash_balance)]

/-- Closed instance of C4: buying 1 AAPL with exactly enough cash. -/
theorem C4_buy_shares_effect_witness :
    ∃ a1, Account.buy_shares
        { Account.init "u" with cash_balance := 150 } "AAPL" (.int 1) =
        .ok a1 ∧
      a1.cash_balance =
        ({ Account.init "u" with cash_balance := 150 } : Account).cash_balance
          - 150 * ((1 : ℤ) : ℚ) ∧
      dictGet a1.holdings (pyUpper "AAPL") =
        dictGet ({ Account.init "u" with
          cash_balance := 150 } : Account).holdings (pyUpper "AAPL") + 1 :=
  (C4_buy_shares_effect { Account.init "u" with cash_balance := 150 }
    "AAPL" 150 1 (by rfl) (by decide)).1 (by simp)

/-- C5: selling more shares than owned fails with `InsufficientSharesError`
before the oracle is consulted, for every symbol, known or unknown, with no
state mutation. -/
theorem C5_sell_unowned (a : Account) (s : String) (n : ℤ) (hn : 0 < n)
    (h : dictGet a.holdings (pyUpper s) < n) :
    a.sell_shares s (.int n) = .error (.insufficientShares, a) := by
  simp only [Account.sell_shares]
  rw [if_neg (by omega : ¬ n ≤ 0), if_pos h]

/-- Closed instance of C5: selling an unowned symbol that is also unknown to
the oracle fails as `InsufficientSharesError`, not `InvalidSymbolError`. -/
theorem C5_sell_unowned_witness :
    Account.sell_shares (Account.init "u") "ZZZQ" (.int 1) =
      .error (.insufficientShares, Account.init "u") :=
  C5_sell_unowned (Account.init "u") "ZZZQ" 1 (by decide) (by decide)

/-- The holdings-valuation loop, folded left, equals the sum of per-holding
contributions, with zero contribution where the price lookup fails. -/
theorem foldl_holdings_value (l : List (String × ℤ)) (c : ℚ) :
    l.foldl (fun acc p =>
      match get_share_price p.1 with
      | some price => acc + price * p.2
      | none => acc) c
    = c + (l.map (fun p =>
      match get_share_price p.1 with
      | some price => price * p.2
      | none => 0)).sum := by
  induction l generalizing c with
  | nil => simp
  | cons p t ih =>
    simp only [List.foldl_cons, List.map_cons, List.sum_cons]
    cases hp : get_share_price p.1 with
    | none =>
      simp only [hp]
      rw [ih]
      ring
    | some price =>
      simp only [hp]
      rw [ih]
      ring

/-- C6: `get_portfolio_value` returns cash plus the sum over holdings of
price times quantity, a holding whose oracle lookup fails contributing
exactly zero.  The function is total by construction (the
`except InvalidSymbolError: pass` branch is the `none` case), so the call
never fails for any holdings contents. -/
theorem C6_portfolio_value (a : Account) :
    a.get_portfolio_value = a.cash_balance +
      (a.holdings.map (fun p =>
        match get_share_price p.1 with
        | some price => price * p.2
        | none => 0)).sum := by
  unfold Account.get_portfolio_value
  rw [foldl_holdings_value]
  ring

/-- C7: `totalDeposited` only ever grows: a successful deposit adds exactly
the deposited amount, a failed deposit changes nothing, and withdraw, buy
and sell never touch it, whether they succeed or fail. -/
theorem C7_total_deposits_monotone :
    (∀ (a : Account) (ops : List Op),
      a.total_deposits ≤ (runOps a ops).total_deposits) ∧
    (∀ (a a1 : Account) (x : ℚ), a.deposit x = .ok a1 →
      a1.total_deposits = a.total_deposits + x) ∧
    (∀ (a : Account) (x : ℚ),
      (runOp a (Op.withdraw x)).total_deposits = a.total_deposits) ∧
    (∀ (a : Account) (s : String) (q : PyNumber),
      (runOp a (Op.buy s q)).total_deposits = a.total_deposits) ∧
    (∀ (a : Account) (s : String) (q : PyNumber),
      (runOp a (Op.sell s q)).total_deposits = a.total_deposits) := by
  have hstep : ∀ (a : Account) (op : Op),
      a.total_deposits ≤ (runOp a op).total_deposits := by
    intro a op
    rcases runOp_cases a op with heq | hok
    · rw [heq]
    · cases op with
      | deposit x =>
        simp only [applyOp] at hok
        obtain ⟨hx, ha⟩ := deposit_ok a x _ hok
        rw [ha]
        dsimp only
        linarith
      | withdraw x =>
        simp only [applyOp] at hok
        obtain ⟨_, _, ha⟩ := withdraw_ok a x _ hok
        rw [ha]
      | buy s q =>
        simp only [applyOp] at hok
        obtain ⟨n, price, _, _, _, _, ha⟩ := buy_ok a s q _ hok
        rw [ha]
      | sell s q =>
        simp only [applyOp] at hok
        obtain ⟨n, price, _, _, _, _, ha⟩ := sell_ok a s q _ hok
        rw [ha]
  refine ⟨?_, ?_, ?_, ?_, ?_⟩
  · intro a ops
    induction ops generalizing a with
    | nil => exact le_refl _
    | cons op rest ih =>
      exact le_trans (hstep a op) (ih (runOp a op))
  · intro a a1 x hok
    obtain ⟨_, ha⟩ := deposit_ok a x a1 hok
    rw [ha]
  · intro a x
    rcases runOp_cases a (Op.withdraw x) with heq | hok
    · rw [heq]
    · simp only [applyOp] at hok
      obtain ⟨_, _, ha⟩ := withdraw_ok a x _ hok
      rw [ha]
  · intro a s q
    rcases runOp_cases a (Op.buy s q) with heq | hok
    · rw [heq]
    · simp only [applyOp] at hok
      obtain ⟨n, price, _, _, _, _, ha⟩ := buy_ok a s q _ hok
      rw [ha]
  · intro a s q
    rcases runOp_cases a (Op.sell s q) with heq | hok
    · rw [heq]
    · simp only [applyOp] at hok
      obtain ⟨n, price, _, _, _, _, ha⟩ := sell_ok a s q _ hok
      rw [ha]

/-- Closed instance of C7: a successful deposit adds exactly its amount to
`totalDeposited`. -/
theorem C7_total_deposits_monotone_witness :
    (runOp (Account.init "u") (Op.deposit 5)).total_deposits =
      (Account.init "u").total_deposits + 5 :=
  C7_total_deposits_monotone.2.1 (Account.init "u") _ 5 (by rfl)

/-- A quantity argument that is a positive Python `int`. -/
def PyNumber.isPosInt : PyNumber → Prop
  | .int n => 0 < n
  | .float _ => False

/-- C8: for any quantity that is not a positive integer (zero, negative, or
a non-integer numeric such as 1.5, which is never truncated), both
`buy_shares` and `sell_shares` fail with the quantity `ValueError` for every
symbol, mutating nothing. -/
theorem C8_invalid_quantity (a : Account) (s : String) (q : PyNumber)
    (h : ¬ q.isPosInt) :
    a.buy_shares s q = .error (.valueErr, a) ∧
    a.sell_shares s q = .error (.valueErr, a) := by
  cases q with
  | float x => exact ⟨rfl, rfl⟩
  | int n =>
    have hn : n ≤ 0 := by
      by_contra hc
      exact h (by simpa [PyNumber.isPosInt] using hc)
    constructor
    · simp only [Account.buy_shares]
      rw [if_pos hn]
    · simp only [Account.sell_shares]
      rw [if_pos hn]

/-- Closed instance of C8: quantity 1.5 is rejected by both operations. -/
theorem C8_invalid_quantity_witness :
    Account.buy_shares (Account.init "u") "AAPL" (.float (3 / 2)) =
      .error (.valueErr, Account.init "u") ∧
    Account.sell_shares (Account.init "u") "AAPL" (.float (3 / 2)) =
      .error (.valueErr, Account.init "u") :=
  C8_invalid_quantity (Account.init "u") "AAPL" (.float (3 / 2))
    (fun hfalse => hfalse)

/-- C10: every reachable holdings key and every BUY/SELL record symbol is
uppercase-normalized, and buying or selling a symbol behaves identically to
buying or selling its uppercased form. -/
theorem C10_uppercase_normalization :
    (∀ a : Account, Reachable a →
      (∀ p ∈ a.holdings, pyUpper p.1 = p.1) ∧
      (∀ t ∈ a.transactions, (t.ttype = "BUY" ∨ t.ttype = "SELL") →
        ∃ u, t.symbol = some u ∧ pyUpper u = u)) ∧
    (∀ (a : Account) (s : String) (q : PyNumber),
      a.buy_shares s q = a.buy_shares (pyUpper s) q ∧
      a.sell_shares s q = a.sell_shares (pyUpper s) q) := by
  constructor
  · intro a h
    obtain ⟨_, hh, ht⟩ := reachable_inv a h
    exact ⟨fun p hp => (hh p hp).2, ht⟩
  · intro a s q
    constructor
    · simp only [Account.buy_shares, pyUpper_idem]
    · simp only [Account.sell_shares, pyUpper_idem]

/-- Closed instance of C10 at a concrete reachable state. -/
theorem C10_uppercase_normalization_witness :
    ∀ p ∈ (runOps (Account.init "u")
      [Op.deposit 1000, Op.buy "aapl" (.int 1)]).holdings,
      pyUpper p.1 = p.1 :=
  (C10_uppercase_normalization.1 _
    ⟨"u", [Op.deposit 1000, Op.buy "aapl" (.int 1)], rfl⟩).1

/-- A fragment of the Python object heap, modelling the aliasing behaviour
of the accessor copies: a store of transaction-record dict objects, a store
of list objects (a Python list of transactions holds references into the
record store), and a store of holdings dict objects.  Addresses are store
indices. -/
structure PyHeap where
  recs : List Transaction
  lists : List (List Nat)
  dicts : List (List (String × ℤ))
deriving Repr

/-- Dereference a transaction-record object. -/
def PyHeap.getRec (h : PyHeap) (addr : Nat) : Transaction :=
  h.recs.getD addr ⟨"", none, none, none, 0⟩

/-- Dereference a list object. -/
def PyHeap.getList (h : PyHeap) (addr : Nat) : List Nat :=
  h.lists.getD addr []

/-- Dereference a holdings dict object. -/
def PyHeap.getDict (h : PyHeap) (addr : Nat) : List (String × ℤ) :=
  h.dicts.getD addr []

/-- In-place mutation of a transaction-record object, as a caller performs
by assigning to a key of a record dict it reached. -/
def PyHeap.setRec (h : PyHeap) (addr : Nat) (v : Transaction) : PyHeap :=
  { h with recs := h.recs.set addr v }

/-- In-place mutation of a list object (append, item assignment, ...),
modelled as replacing its contents wholesale. -/
def PyHeap.setList (h : PyHeap) (addr : Nat) (v : List Nat) : PyHeap :=
  { h with lists := h.lists.set addr v }

/-- In-place mutation of a holdings dict object. -/
def PyHeap.setDict (h : PyHeap) (addr : Nat) (v : List (String × ℤ)) : PyHeap :=
  { h with dicts := h.dicts.set addr v }

/-- Allocate a fresh list object. -/
def PyHeap.allocList (h : PyHeap) (v : List Nat) : PyHeap × Nat :=
  ({ h with lists := h.lists ++ [v] }, h.lists.length)

/-- Allocate a fresh dict object. -/
def PyHeap.allocDict (h : PyHeap) (v : List (String × ℤ)) : PyHeap × Nat :=
  ({ h with dicts := h.dicts ++ [v] }, h.dicts.length)

/-- The heap-level view of one account: references to its internal
`_holdings` dict object and `_transactions` list object. -/
structure AccountObj where
  holdingsAddr : Nat
  transAddr : Nat
deriving Repr

/-- Method `Account.get_transaction_history`: `return self._transactions.copy()` —
a NEW list object whose elements are the SAME record references (a shallow
copy of the list). -/
def get_transaction_history_obj (h : PyHeap) (a : AccountObj) :
    PyHeap × Nat :=
  h.allocList (h.getList a.transAddr)

/-- Method `Account.get_holdings`: `return self._holdings.copy()` — a new dict
object with the same symbol-to-int entries (ints are immutable, so this
copy shares no mutable part). -/
def get_holdings_obj (h : PyHeap) (a : AccountObj) : PyHeap × Nat :=
  h.allocDict (h.getDict a.holdingsAddr)

/-- The transaction history a subsequent
`get_transaction_history()` call exposes: the record contents reached
through the internal list object of the account. -/
def historyView (h : PyHeap) (a : AccountObj) : List Transaction :=
  (h.getList a.transAddr).map (fun r => h.getRec r)

/-- The holdings a subsequent `get_holdings()` call exposes. -/
def holdingsView (h : PyHeap) (a : AccountObj) : List (String × ℤ) :=
  h.getDict a.holdingsAddr

/-- C9 counterexample: `_transactions.copy()` is a SHALLOW copy, so the
record dicts inside the returned list are the record objects of the ledger
itself.
Concretely: with one DEPOSIT record on the heap, a caller that takes the
returned history copy, follows its first element to the record it contains
and mutates that record in place, changes the result of every subsequent
`get_transaction_history()` call — refuting the claim that mutating the
returned structure including the records it contains leaves ledger state
and subsequent results unchanged. -/
theorem C9_copy_isolation_counterexample :
    historyView
      ((get_transaction_history_obj
          ⟨[⟨"DEPOSIT", none, none, none, 100⟩], [[0]], [[]]⟩
          ⟨0, 0⟩).1.setRec
        (((get_transaction_history_obj
            ⟨[⟨"DEPOSIT", none, none, none, 100⟩], [[0]], [[]]⟩
            ⟨0, 0⟩).1.getList
          (get_transaction_history_obj
            ⟨[⟨"DEPOSIT", none, none, none, 100⟩], [[0]], [[]]⟩
            ⟨0, 0⟩).2).getD 0 0)
        ⟨"HACK", none, none, none, 100⟩)
      ⟨0, 0⟩ ≠
    historyView ⟨[⟨"DEPOSIT", none, none, none, 100⟩], [[0]], [[]]⟩ ⟨0, 0⟩ := by
  decide

/-- Dereferencing a freshly allocated list object yields its contents. -/
theorem getList_allocList (h : PyHeap) (v : List Nat) :
    (h.allocList v).1.getList (h.allocList v).2 = v := by
  simp [PyHeap.allocList, PyHeap.getList, List.getElem?_concat_length]

/-- Allocating a list object leaves existing list objects unchanged. -/
theorem getList_allocList_old (h : PyHeap) (v : List Nat) (t : Nat)
    (ht : t < h.lists.length) :
    (h.allocList v).1.getList t = h.getList t := by
  simp [PyHeap.allocList, PyHeap.getList, List.getElem?_append_left ht]

/-- Mutating one list object leaves every other list object unchanged. -/
theorem getList_setList_ne (h : PyHeap) (c t : Nat) (v : List Nat)
    (hne : c ≠ t) : (h.setList c v).getList t = h.getList t := by
  simp [PyHeap.setList, PyHeap.getList, List.getElem?_set_ne hne]

/-- Dereferencing a freshly allocated dict object yields its contents. -/
theorem getDict_allocDict (h : PyHeap) (v : List (String × ℤ)) :
    (h.allocDict v).1.getDict (h.allocDict v).2 = v := by
  simp [PyHeap.allocDict, PyHeap.getDict, List.getElem?_concat_length]

/-- Allocating a dict object leaves existing dict objects unchanged. -/
theorem getDict_allocDict_old (h : PyHeap) (v : List (String × ℤ)) (t : Nat)
    (ht : t < h.dicts.length) :
    (h.allocDict v).1.getDict t = h.getDict t := by
  simp [PyHeap.allocDict, PyHeap.getDict, List.getElem?_append_left ht]

/-- Mutating one dict object leaves every other dict object unchanged. -/
theorem getDict_setDict_ne (h : PyHeap) (c t : Nat) (v : List (String × ℤ))
    (hne : c ≠ t) : (h.setDict c v).getDict t = h.getDict t := by
  simp [PyHeap.setDict, PyHeap.getDict, List.getElem?_set_ne hne]

/-- C9, amended: `get_holdings()` returns a fully independent copy (its
values are immutable ints), and `get_transaction_history()` returns a fresh
list object with the same contents whose own mutation never affects
ledger-internal state — but it is a SHALLOW copy, so in-place mutation of a
record reached through it does change subsequent results (see the
counterexample). -/
theorem C9_copy_isolation_amended (h : PyHeap) (a : AccountObj)
    (ht : a.transAddr < h.lists.length)
    (hd : a.holdingsAddr < h.dicts.length) :
    ((get_transaction_history_obj h a).2 ≠ a.transAddr ∧
      (get_transaction_history_obj h a).1.getList
        (get_transaction_history_obj h a).2 = h.getList a.transAddr ∧
      ∀ v, historyView ((get_transaction_history_obj h a).1.setList
          (get_transaction_history_obj h a).2 v) a = historyView h a ∧
        holdingsView ((get_transaction_history_obj h a).1.setList
          (get_transaction_history_obj h a).2 v) a = holdingsView h a) ∧
    ((get_holdings_obj h a).2 ≠ a.holdingsAddr ∧
      (get_holdings_obj h a).1.getDict (get_holdings_obj h a).2 =
        h.getDict a.holdingsAddr ∧
      ∀ v, holdingsView ((get_holdings_obj h a).1.setDict
          (get_holdings_obj h a).2 v) a = holdingsView h a ∧
        historyView ((get_holdings_obj h a).1.setDict
          (get_holdings_obj h a).2 v) a = historyView h a) := by
  constructor
  · refine ⟨by simpa [get_transaction_history_obj, PyHeap.allocList]
        using Nat.ne_of_gt ht, getList_allocList h _, ?_⟩
    intro v
    constructor
    · unfold historyView
      rw [getList_setList_ne _ _ _ _
        (by simpa [get_transaction_history_obj, PyHeap.allocList]
          using Nat.ne_of_gt ht)]
      unfold get_transaction_history_obj
      rw [getList_allocList_old h _ _ ht]
      rfl
    · rfl
  · refine ⟨by simpa [get_holdings_obj, PyHeap.allocDict]
        using Nat.ne_of_gt hd, getDict_allocDict h _, ?_⟩
    intro v
    constructor
    · unfold holdingsView
      rw [getDict_setDict_ne _ _ _ _
        (by simpa [get_holdings_obj, PyHeap.allocDict]
          using Nat.ne_of_gt hd)]
      unfold get_holdings_obj
      rw [getDict_allocDict_old h _ _ hd]
    · rfl

/-- Closed instance of the amended C9 on a concrete heap: overwriting the
returned holdings copy leaves the internal holdings unchanged. -/
theorem C9_copy_isolation_amended_witness :
    holdingsView
      (((get_holdings_obj ⟨[], [[]], [[("AAPL", 3)]]⟩ ⟨0, 0⟩).1.setDict
        (get_holdings_obj ⟨[], [[]], [[("AAPL", 3)]]⟩ ⟨0, 0⟩).2
        [("TSLA", 2)])) ⟨0, 0⟩ =
      holdingsView ⟨[], [[]], [[("AAPL", 3)]]⟩ ⟨0, 0⟩ :=
  ((C9_copy_isolation_amended ⟨[], [[]], [[("AAPL", 3)]]⟩ ⟨0, 0⟩
    (by decide) (by decide)).2.2.2 [("TSLA", 2)]).1
